import Mathlib

/-!
# Verification of the bookmarks-html pipeline (`src/utils.py`)

This file gives a shallow embedding of the core logic of the repository:
the bookmark record model and its comparison operators (`BookmarkInfo`),
configuration lookup (`Config.get`), the line parser (`Utils._get_folders`),
the folder-tree builder (`Utils._build_bookmarks_dict`), the tree renderer
(`Utils._build_bookmark_elements` / `_build_folder_bookmark_elements`), and
the degrading record producer (`Utils._get_bookmark_info`).

Modelling conventions:
* Python strings that are only compared/stored are Lean `String`s; the raw
  input line, which the parser scans character by character, is a
  `List Char`, and the two configured separators are single characters
  (the spec calls them "separator characters"; defaults `'|'` and `','`).
* Python's ordered `dict` of subfolders is an ordered association structure
  `FolderList` (keys unique by construction, first-seen order preserved,
  new keys appended at the end — exactly CPython dict insertion semantics).
* The iterative in-place walk of `_build_bookmarks_dict` is expressed as a
  recursion over the folder path with the same net effect.
* Exceptions (`requests.exceptions.RequestException`, `ImportError`) become
  `Except Unit` results of oracle functions standing for the external
  collaborators (HTTP fetch, HTML parse); the `try/except` of
  `_get_bookmark_info` becomes a `match` on those results.
* The module-level constant `current_time_seconds = int(time.time())` is a
  parameter `t : Nat` threaded through the rendering functions; every DOM
  element built in one run reads this single value.
-/

/-- Bookmark record: mirrors the attributes of `BookmarkInfo` in
`src/utils.py` (url, title, content, favicon, folders). -/
structure BookmarkInfo where
  url : String
  title : String
  content : String
  favicon : Option String
  folders : List String
  deriving DecidableEq, Repr

/-- CPython `str` comparison, `s1 < s2`: lexicographic by code point
(identical to Lean's `String` order, spelt out over the character lists so
that it evaluates). -/
def pyCharListLt : List Char → List Char → Bool
  | [], [] => false
  | [], _ :: _ => true
  | _ :: _, [] => false
  | x :: xs, y :: ys =>
    if x < y then true
    else if x = y then pyCharListLt xs ys
    else false

/-- CPython `str` comparison on Lean `String`s. -/
def pyStrLt (s1 s2 : String) : Bool :=
  pyCharListLt s1.data s2.data

/-- CPython comparison of two `list[str]` values: lexicographic, first
unequal element decides, a strict prefix is smaller. -/
def pyListLt : List String → List String → Bool
  | [], [] => false
  | [], _ :: _ => true
  | _ :: _, [] => false
  | x :: xs, y :: ys =>
    if pyStrLt x y then true
    else if x = y then pyListLt xs ys
    else false

/-- `BookmarkInfo.__lt__` from `src/utils.py`:
`self.folders < other.folders and self.url < other.url` — the conjunction
of the two component comparisons (NOT a lexicographic tuple comparison). -/
def BookmarkInfo.lt (b1 b2 : BookmarkInfo) : Bool :=
  pyListLt b1.folders b2.folders && pyStrLt b1.url b2.url

/-- Lexicographic comparison by the pair `(folders, url)` as the spec
describes it: folders first, URL as tie-breaker.  Spec-side definition,
used to exhibit the divergence from `BookmarkInfo.lt`. -/
def lexLtSpec (b1 b2 : BookmarkInfo) : Bool :=
  pyListLt b1.folders b2.folders ||
    (b1.folders == b2.folders && pyStrLt b1.url b2.url)

/-- Stable insertion of `x` into `l`: `x` moves past exactly those earlier
elements `y` with `lt y x`.  Component of `pySort`. -/
def pyInsert (lt : α → α → Bool) (x : α) : List α → List α
  | [] => [x]
  | y :: ys => if lt y x then y :: pyInsert lt x ys else x :: y :: ys

/-- Stable comparison sort using only `lt`, modelling CPython's stable
`list.sort()`.  On a two-element list `[a, b]` any stable sort driven by a
single `__lt__` call behaves identically: it swaps iff `lt b a`, which is
exactly what both this function and CPython's Timsort do; the theorems
below use it only at length two. -/
def pySort (lt : α → α → Bool) : List α → List α
  | [] => []
  | x :: xs => pyInsert lt x (pySort lt xs)

/-- `Utils._get_bookmarks_list` after the records have been produced:
`if self._config.get("sort", False): bookmarks.sort()`.  The fetching that
produces `records` is modelled separately (`getBookmarkInfo`). -/
def getBookmarksList (sortFlag : Bool) (records : List BookmarkInfo) :
    List BookmarkInfo :=
  if sortFlag then pySort BookmarkInfo.lt records else records

/-- First-match lookup in an ordered association list; models CPython's
`self._values[key]` read on a dict parsed from YAML (`none` = key absent,
i.e. `KeyError`; `some none` = key present with a `null` value). -/
def assocLookup (key : String) : List (String × Option α) → Option (Option α)
  | [] => none
  | (k, v) :: tl => if k = key then some v else assocLookup key tl

/-- `Config.get` from `src/utils.py`.  `vals = none` models
`self._values is None` (empty YAML document); otherwise the document is an
ordered mapping.  The body is
`value = self._values[key]` (raises `KeyError` when the key is absent,
modelled as `Except.error ()`) followed by
`if value is None: value = default`. -/
def configGet (vals : Option (List (String × Option α))) (key : String)
    (dflt : α) : Except Unit α :=
  match vals with
  | none => Except.ok dflt
  | some m =>
    match assocLookup key m with
    | none => Except.error ()
    | some none => Except.ok dflt
    | some (some v) => Except.ok v

/-- CPython `str.split(sep)` for a one-character separator on a line viewed
as its character list: splits at every occurrence, keeps empty pieces,
returns `[line]` when the separator does not occur (`[[]]` on the empty
line, as in Python). -/
def pySplit (sep : Char) : List Char → List (List Char)
  | [] => [[]]
  | c :: cs =>
    if c = sep then [] :: pySplit sep cs
    else
      match pySplit sep cs with
      | [] => [[c]]
      | r :: rs => (c :: r) :: rs

/-- `Utils._get_folders` from `src/utils.py`:
`items = line.split(folder_separator)`; when `len(items) > 1` the folders
are `items[0].split(subfolder_separator)` and the url is `items[1]`;
otherwise `folders = []` and `url = line`. -/
def getFolders (fsep ssep : Char) (line : List Char) :
    List (List Char) × List Char :=
  match pySplit fsep line with
  | i0 :: i1 :: _ => (pySplit ssep i0, i1)
  | _ => ([], line)

/-- The characters of `l` strictly before the first occurrence of `sep`
(all of `l` if `sep` does not occur).  Spec-side description of what
`items[1]` turns out to be. -/
def takeUntilSep (sep : Char) : List Char → List Char
  | [] => []
  | c :: cs => if c = sep then [] else c :: takeUntilSep sep cs

mutual
/-- One node of the nested bookmarks dictionary built by
`Utils._build_bookmarks_dict`: the Python value
`{"bookmarks": [...], "folders": {...}}`. -/
inductive BookmarksDict where
  | mk (bookmarks : List BookmarkInfo) (folders : FolderList) : BookmarksDict
/-- The ordered `"folders"` dict of a node: an ordered association
structure, keys unique by construction, preserving CPython dict insertion
order. -/
inductive FolderList where
  | nil : FolderList
  | cons (name : String) (node : BookmarksDict) (tail : FolderList) : FolderList
end

/-- The `"bookmarks"` list of a node. -/
def BookmarksDict.bookmarks : BookmarksDict → List BookmarkInfo
  | .mk bs _ => bs

/-- The `"folders"` dict of a node. -/
def BookmarksDict.foldersOf : BookmarksDict → FolderList
  | .mk _ fs => fs

/-- The fresh node `{"bookmarks": [], "folders": {}}`. -/
def emptyDict : BookmarksDict := .mk [] .nil

/-- Dict read `d[folder]`, `none` when the key is absent. -/
def lookupF (f : String) : FolderList → Option BookmarksDict
  | .nil => none
  | .cons k v tl => if k = f then some v else lookupF f tl

/-- In-place update of key `f` in a CPython dict: if `f` is present its
value is replaced by `g value` at its existing position; otherwise the
entry `(f, g emptyDict)` is appended at the end (this is
`if folder not in d: d[folder] = {...}` followed by work on `d[folder]`). -/
def updFolder (f : String) (g : BookmarksDict → BookmarksDict) :
    FolderList → FolderList
  | .nil => .cons f (g emptyDict) .nil
  | .cons k v tl =>
    if k = f then .cons k (g v) tl else .cons k v (updFolder f g tl)

/-- The net effect of one iteration of the record loop in
`Utils._build_bookmarks_dict`: walk `path` from `d`, creating each missing
child node on demand, and append `b` to the bookmarks list of the node
reached (the root's own list when `path` is empty). -/
def insertB (b : BookmarkInfo) : List String → BookmarksDict → BookmarksDict
  | [], .mk bs fs => .mk (bs ++ [b]) fs
  | f :: rest, .mk bs fs => .mk bs (updFolder f (fun d => insertB b rest d) fs)

/-- `Utils._build_bookmarks_dict`: fold the record list, in order, into an
initially empty root node. -/
def buildBookmarksDict (records : List BookmarkInfo) : BookmarksDict :=
  records.foldl (fun d b => insertB b b.folders d) emptyDict

/-- The node reached from `d` by walking the segments of `p` in order;
`none` when some segment is missing. -/
def nodeAt : List String → BookmarksDict → Option BookmarksDict
  | [], d => some d
  | f :: rest, .mk _ fs =>
    match lookupF f fs with
    | none => none
    | some v => nodeAt rest v

/-- The bookmarks list of the node reached by walking `p` (empty when no
such node exists). -/
def bookmarksAt (p : List String) (d : BookmarksDict) : List BookmarkInfo :=
  match nodeAt p d with
  | none => []
  | some n => n.bookmarks

/-- One emitted element of the rendered output, in document order: a folder
heading `<DT><H3 ADD_DATE LAST_MODIFIED>name</H3>` or one bookmark anchor
`<DT><A HREF ADD_DATE LAST_MODIFIED [ICON]>title</A>`. -/
inductive Tok where
  | heading (name : String) (addDate lastModified : Nat) : Tok
  | bookmark (title url : String) (addDate lastModified : Nat)
      (icon : Option String) : Tok
  deriving DecidableEq, Repr

/-- `BookmarkInfo.html` from `src/utils.py`: a `dt` holding an anchor with
the record's title as text, its url as `href`, both timestamp attributes
set to the module constant `t`, and an `icon` attribute exactly when
`favicon` is not `None`. -/
def BookmarkInfo.htmlTok (t : Nat) (b : BookmarkInfo) : Tok :=
  .bookmark b.title b.url t t b.favicon

/-- `ADD_DATE` attribute of an emitted element. -/
def tokAddDate : Tok → Nat
  | .heading _ ad _ => ad
  | .bookmark _ _ ad _ _ => ad

/-- `LAST_MODIFIED` attribute of an emitted element. -/
def tokLastModified : Tok → Nat
  | .heading _ _ lm => lm
  | .bookmark _ _ _ lm _ => lm

mutual
/-- `Utils._build_folder_bookmark_elements`, flattened to document order:
the folder heading, then the recursively rendered subfolder blocks, then
the folder's own bookmarks. -/
def buildFolderBookmarkElements (t : Nat) (name : String) :
    BookmarksDict → List Tok
  | .mk bs fs =>
    Tok.heading name t t ::
      (buildFolderList t fs ++ bs.map (BookmarkInfo.htmlTok t))
/-- The `for subfolder in ...` loop: sibling folders rendered in dict
(first-seen) order. -/
def buildFolderList (t : Nat) : FolderList → List Tok
  | .nil => []
  | .cons k v tl => buildFolderBookmarkElements t k v ++ buildFolderList t tl
end

/-- `Utils._build_bookmark_elements`, flattened to document order: all
folder blocks of the root (in dict order), then the root's own bookmarks. -/
def buildBookmarkElements (t : Nat) (d : BookmarksDict) : List Tok :=
  buildFolderList t d.foldersOf ++ d.bookmarks.map (BookmarkInfo.htmlTok t)

/-- Names of the emitted folder headings, in document order. -/
def headingNames (l : List Tok) : List String :=
  l.filterMap fun tok =>
    match tok with
    | .heading n _ _ => some n
    | .bookmark _ _ _ _ _ => none

/-- Is this element a bookmark anchor? -/
def isBookmarkTok : Tok → Bool
  | .heading _ _ _ => false
  | .bookmark _ _ _ _ _ => true

/-- The emitted bookmark anchors, in document order. -/
def bookmarkToks (l : List Tok) : List Tok :=
  l.filter isBookmarkTok

mutual
/-- Spec-side: depth-first pre-order listing of folder names — each folder
name before the names of its subfolders, siblings in first-seen order. -/
def preorderNames : BookmarksDict → List String
  | .mk _ fs => preorderNamesList fs
/-- Spec-side: pre-order folder names of a sibling list. -/
def preorderNamesList : FolderList → List String
  | .nil => []
  | .cons k v tl => k :: (preorderNames v ++ preorderNamesList tl)
end

mutual
/-- Spec-side: the bookmarks of a node in emission order — each subfolder's
bookmarks (depth-first, siblings in first-seen order) before the node's own
bookmarks, the latter kept in list order. -/
def collectBookmarks : BookmarksDict → List BookmarkInfo
  | .mk bs fs => collectBookmarksList fs ++ bs
/-- Spec-side: emission-order bookmarks of a sibling list. -/
def collectBookmarksList : FolderList → List BookmarkInfo
  | .nil => []
  | .cons _ v tl => collectBookmarks v ++ collectBookmarksList tl
end

/-- `Utils._get_bookmark_info` from `src/utils.py`, with the external
collaborators as oracles:

* `fetch url` stands for `self._get_html(url)` — `Except.ok (u2, content)`
  is a successful response with (possibly redirect-rewritten) final URL
  `u2` and body `content`; `Except.error ()` is a raised
  `requests.exceptions.RequestException` (transport failure or
  `raise_for_status`).
* `parseTitleE content` stands for `BeautifulSoup(...)` plus
  `self._parse_title(...)` — `Except.error ()` is a raised `ImportError`
  while building the soup, `Except.ok none` means no usable `<title>`
  (fallback to the URL), `Except.ok (some s)` the extracted stripped title.
* `parseFaviconE content` stands for `self._parse_favicon_data(soup)`,
  only consulted when `read_favicon` is set — `Except.error ()` is a
  `RequestException` raised while fetching the icon, `Except.ok fav` the
  optional data URI.

The `try/except` blocks become matches; in every handler the already
constructed record (when the fetch succeeded) is kept — only when the
fetch itself failed is the fresh record `BookmarkInfo(url, "")` built —
and `title` is overwritten with the (pre-rewrite) URL. -/
def getBookmarkInfo (fetch : String → Except Unit (String × String))
    (parseTitleE : String → Except Unit (Option String))
    (parseFaviconE : String → Except Unit (Option String))
    (readFavicon : Bool) (fsep ssep : Char) (line : List Char) :
    BookmarkInfo :=
  let parsed := getFolders fsep ssep line
  let folders := parsed.1.map List.asString
  let url := parsed.2.asString
  match fetch url with
  | .error _ => ⟨url, url, "", none, folders⟩
  | .ok (u2, content) =>
    match parseTitleE content with
    | .error _ => ⟨u2, url, content, none, folders⟩
    | .ok topt =>
      let title :=
        match topt with
        | some s => s
        | none => url
      if readFavicon then
        match parseFaviconE content with
        | .error _ => ⟨u2, url, content, none, folders⟩
        | .ok fav => ⟨u2, title, content, fav, folders⟩
      else ⟨u2, title, content, none, folders⟩

/-- Constant failing fetch oracle (every request raises). -/
def fetchFail : String → Except Unit (String × String) := fun _ => Except.error ()

/-- Parse oracle that finds no title and no favicon. -/
def parseNone : String → Except Unit (Option String) := fun _ => Except.ok none

/-- A concrete record filed under the single folder `"A"`, for the
witnesses below. -/
def r0 : BookmarkInfo := ⟨"http://x", "t", "", none, ["A"]⟩

/-! ## Parser lemmas -/

/-- Splitting a separator-free line yields the single piece `[l]`. -/
theorem pySplit_of_not_mem (sep : Char) :
    ∀ (l : List Char), sep ∉ l → pySplit sep l = [l]
  | [], _ => rfl
  | c :: cs, h => by
    have hc : ¬ c = sep := fun hc => h (by simp [hc])
    have ih := pySplit_of_not_mem sep cs (fun hm => h (List.mem_cons_of_mem c hm))
    simp [pySplit, hc, ih]

/-- The first piece produced by `pySplit` is the text before the first
occurrence of the separator. -/
theorem pySplit_head (sep : Char) :
    ∀ (l : List Char), ∃ rs, pySplit sep l = takeUntilSep sep l :: rs
  | [] => ⟨[], rfl⟩
  | c :: cs => by
    by_cases hc : c = sep
    · exact ⟨pySplit sep cs, by simp [pySplit, takeUntilSep, hc]⟩
    · obtain ⟨rs, hrs⟩ := pySplit_head sep cs
      exact ⟨rs, by simp [pySplit, takeUntilSep, hc, hrs]⟩

/-- Splitting `a ++ sep :: b` for separator-free `a` peels off `a` as the
first piece and continues on `b`. -/
theorem pySplit_append (sep : Char) :
    ∀ (a b : List Char), sep ∉ a →
      pySplit sep (a ++ sep :: b) = a :: pySplit sep b
  | [], b, _ => by simp [pySplit]
  | c :: a', b, h => by
    have hc : ¬ c = sep := fun hc => h (by simp [hc])
    have ih := pySplit_append sep a' b (fun hm => h (List.mem_cons_of_mem c hm))
    simp [pySplit, hc, ih]

/-- C7: for every input line that does not contain the folder separator,
parsing returns an empty folder path and a URL equal to the entire line
verbatim (and, being total, performs no validation of URL syntax). -/
theorem c7_no_separator (fsep ssep : Char) (line : List Char)
    (h : fsep ∉ line) : getFolders fsep ssep line = ([], line) := by
  simp [getFolders, pySplit_of_not_mem fsep line h]

/-- Witness for `c7_no_separator` at the line `"http://x"`. -/
theorem c7_no_separator_witness :
    ('|' ∉ ("http://x".toList)) ∧
      getFolders '|' ',' ("http://x".toList) = ([], "http://x".toList) :=
  ⟨by decide, c7_no_separator '|' ',' ("http://x".toList) (by decide)⟩

/-- C4 counterexample: on the line `"A|x|y"` — which contains the folder
separator, with further occurrences after the first — the code returns
`"x"` as the URL, not the entire text `"x|y"` after the first separator as
the claim states. -/
theorem c4_counterexample :
    (getFolders '|' ',' ("A|x|y".toList)).2 = "x".toList ∧
      "x".toList ≠ "x|y".toList := by
  exact ⟨by decide, by decide⟩

/-- C4 as amended: for a line `a ++ fsep :: b` whose folder part `a` is
separator-free, the folder segments are `a` split on the subfolder
separator, and the URL is the text after the FIRST separator only up to
the NEXT occurrence of the separator (everything from a second occurrence
onward is dropped, because the code splits on every occurrence and takes
`items[1]`). -/
theorem c4_amended (fsep ssep : Char) (a b : List Char) (ha : fsep ∉ a) :
    getFolders fsep ssep (a ++ fsep :: b) =
      (pySplit ssep a, takeUntilSep fsep b) := by
  obtain ⟨rs, hrs⟩ := pySplit_head fsep b
  simp [getFolders, pySplit_append fsep a b ha, hrs]

/-- Witness for `c4_amended` at the line `"A|x|y"`. -/
theorem c4_amended_witness :
    ('|' ∉ ("A".toList)) ∧
      getFolders '|' ',' ("A".toList ++ '|' :: ("x|y".toList)) =
        (pySplit ',' ("A".toList), takeUntilSep '|' ("x|y".toList)) :=
  ⟨by decide, c4_amended '|' ',' ("A".toList) ("x|y".toList) (by decide)⟩

/-! ## Configuration lemmas -/

/-- C6 evaluation: looking up the key `"sort"` in a configuration document
that is present but does not contain the key raises `KeyError`
(`Except.error`) instead of returning the default `False` — the code reads
`self._values[key]`, so an absent key is NOT optional. -/
theorem c6_keyerror_eval :
    configGet (some ([] : List (String × Option Bool))) "sort" false =
      Except.error () := rfl

/-- C10: a key present in the configuration document but bound to a null
value is indistinguishable from an absent-with-default key: lookup returns
the caller-supplied default. -/
theorem c10_null_default {α : Type} (m : List (String × Option α))
    (key : String) (dflt : α) (h : assocLookup key m = some none) :
    configGet (some m) key dflt = Except.ok dflt := by
  simp [configGet, h]

/-- Witness for `c10_null_default`: the document `{sort: null}`. -/
theorem c10_null_default_witness :
    assocLookup "sort" [("sort", (none : Option Bool))] = some none ∧
      configGet (some [("sort", (none : Option Bool))]) "sort" false =
        Except.ok false :=
  ⟨rfl, c10_null_default [("sort", (none : Option Bool))] "sort" false rfl⟩

/-! ## Sorting -/

/-- C3 evaluation: with sort enabled and the records
`(folders=["B"], url="a")`, `(folders=["A"], url="z")`, the list is NOT
reordered to `[["A"],["B"]]`: `__lt__` demands `folders < folders AND
url < url`, so the second record does not compare below the first (its URL
is larger), even though the lexicographic `(folders, url)` comparison the
spec describes puts it strictly first. -/
theorem c3_sort_eval :
    getBookmarksList true
        [(⟨"a", "", "", none, ["B"]⟩ : BookmarkInfo), ⟨"z", "", "", none, ["A"]⟩] =
      [(⟨"a", "", "", none, ["B"]⟩ : BookmarkInfo), ⟨"z", "", "", none, ["A"]⟩]
    ∧ BookmarkInfo.lt ⟨"z", "", "", none, ["A"]⟩ ⟨"a", "", "", none, ["B"]⟩ = false
    ∧ lexLtSpec ⟨"z", "", "", none, ["A"]⟩ ⟨"a", "", "", none, ["B"]⟩ = true := by
  exact ⟨by decide, by decide, by decide⟩

/-! ## Degraded records -/

/-- C5 counterexample: when the fetch succeeds with body `"CONTENT"` but
the HTML-parse step raises, the produced record keeps the fetched content
(`bookmark_info` already exists, so the handler does not rebuild it with
empty content) — the claim's "content is the empty string" is false for
parse failures. -/
theorem c5_counterexample :
    (getBookmarkInfo (fun _ => Except.ok ("http://x", "CONTENT"))
        (fun _ => Except.error ()) (fun _ => Except.ok none) false '|' ','
        ("http://x".toList)).content = "CONTENT"
    ∧ ("CONTENT" : String) ≠ "" := by
  exact ⟨rfl, by decide⟩

/-- C5 as amended: producing a record never fails, and
* on fetch failure the record is fully degraded — title and url are the
  parsed URL, content is empty, no favicon;
* on parse failure after a successful fetch the record has the URL as its
  title and no favicon but KEEPS the fetched content (and the rewritten
  URL);
* mapping the producer over the input lines yields exactly one record per
  line. -/
theorem c5_amended (fetch : String → Except Unit (String × String))
    (pt pf : String → Except Unit (Option String)) (rf : Bool)
    (fsep ssep : Char) (line : List Char) :
    (fetch ((getFolders fsep ssep line).2.asString) = Except.error () →
      getBookmarkInfo fetch pt pf rf fsep ssep line =
        ⟨(getFolders fsep ssep line).2.asString,
          (getFolders fsep ssep line).2.asString, "", none,
          (getFolders fsep ssep line).1.map List.asString⟩)
    ∧ (∀ u2 c,
        fetch ((getFolders fsep ssep line).2.asString) = Except.ok (u2, c) →
        pt c = Except.error () →
        getBookmarkInfo fetch pt pf rf fsep ssep line =
          ⟨u2, (getFolders fsep ssep line).2.asString, c, none,
            (getFolders fsep ssep line).1.map List.asString⟩)
    ∧ (∀ (lines : List (List Char)),
        (lines.map (getBookmarkInfo fetch pt pf rf fsep ssep)).length =
          lines.length) := by
  refine ⟨fun h => ?_, fun u2 c h1 h2 => ?_, fun lines => by simp⟩
  · simp [getBookmarkInfo, h]
  · simp [getBookmarkInfo, h1, h2]

/-- Witness for `c5_amended`: an unreachable URL still yields its one,
fully degraded record. -/
theorem c5_amended_witness :
    fetchFail "http://x" = Except.error () ∧
      getBookmarkInfo fetchFail parseNone parseNone false '|' ','
          ("http://x".toList) =
        ⟨"http://x", "http://x", "", none, []⟩ :=
  ⟨rfl,
    (c5_amended fetchFail parseNone parseNone false '|' ','
        ("http://x".toList)).1 rfl⟩

/-! ## Folder-tree construction -/

/-- The empty node has no bookmarks at any path. -/
theorem bookmarksAt_emptyDict : ∀ (p : List String), bookmarksAt p emptyDict = []
  | [] => rfl
  | _ :: _ => rfl

/-- The only node of the empty tree is its root. -/
theorem nodeAt_emptyDict : ∀ (p : List String),
    nodeAt p emptyDict = if p = [] then some emptyDict else none
  | [] => rfl
  | _ :: _ => by simp [nodeAt, emptyDict, lookupF]

/-- `bookmarksAt` returns the bookmarks of the node `nodeAt` reaches. -/
theorem bookmarksAt_eq_of_nodeAt (p : List String) (d : BookmarksDict)
    (n : BookmarksDict) (h : nodeAt p d = some n) :
    bookmarksAt p d = n.bookmarks := by
  simp [bookmarksAt, h]

/-- Unfolding `bookmarksAt` one path segment. -/
theorem bookmarksAt_cons (f : String) (ps : List String)
    (bs : List BookmarkInfo) (fs : FolderList) :
    bookmarksAt (f :: ps) (.mk bs fs) =
      match lookupF f fs with
      | none => []
      | some v => bookmarksAt ps v := by
  cases hl : lookupF f fs <;> simp [bookmarksAt, nodeAt, hl]

/-- Updating key `f` of a folder dict: reads of `f` see the updated value
(over the previous value, or a fresh empty node when `f` was absent);
reads of other keys are untouched. -/
theorem lookupF_updFolder (x f : String) (g : BookmarksDict → BookmarksDict) :
    ∀ (l : FolderList),
      lookupF x (updFolder f g l) =
        if x = f then some (g ((lookupF f l).getD emptyDict))
        else lookupF x l
  | .nil => by
    by_cases hx : x = f
    · subst hx
      simp [updFolder, lookupF]
    · have hx' : ¬ f = x := fun h => hx h.symm
      simp [updFolder, lookupF, hx, hx']
  | .cons k v tl => by
    by_cases hk : k = f
    · subst hk
      by_cases hx : x = k
      · subst hx
        simp [updFolder, lookupF]
      · have hx' : ¬ k = x := fun h => hx h.symm
        simp [updFolder, lookupF, hx, hx']
    · have ih := lookupF_updFolder x f g tl
      by_cases hx : x = k
      · subst hx
        have hk' : ¬ x = f := fun h => hk (h ▸ rfl)
        simp [updFolder, lookupF, hk, hk']
      · have hx' : ¬ k = x := fun h => hx h.symm
        simp [updFolder, lookupF, hk, hx', ih]

/-- Unfolding `nodeAt` one path segment. -/
theorem nodeAt_cons (f : String) (ps : List String)
    (bs : List BookmarkInfo) (fs : FolderList) :
    nodeAt (f :: ps) (.mk bs fs) =
      match lookupF f fs with
      | none => none
      | some v => nodeAt ps v := rfl

/-- Effect of inserting one record along path `q` on the bookmarks list
observed at any path `p`: the list at `q` itself gains `b` at its end;
every other observed list is unchanged. -/
theorem bookmarksAt_insertB :
    ∀ (q : List String) (b : BookmarkInfo) (d : BookmarksDict)
      (p : List String),
      bookmarksAt p (insertB b q d) =
        bookmarksAt p d ++ (if q = p then [b] else [])
  | [], b, .mk bs fs, [] => by
    simp [insertB, bookmarksAt, nodeAt, BookmarksDict.bookmarks]
  | [], b, .mk bs fs, g :: ps => by
    rw [show insertB b [] (.mk bs fs) = .mk (bs ++ [b]) fs from rfl,
      bookmarksAt_cons, bookmarksAt_cons]
    simp
  | f :: qs, b, .mk bs fs, [] => by
    simp [insertB, bookmarksAt, nodeAt, BookmarksDict.bookmarks]
  | f :: qs, b, .mk bs fs, g :: ps => by
    rw [show insertB b (f :: qs) (.mk bs fs)
        = .mk bs (updFolder f (fun d => insertB b qs d) fs) from rfl,
      bookmarksAt_cons, bookmarksAt_cons, lookupF_updFolder]
    by_cases hg : g = f
    · rw [if_pos hg, ← hg]
      cases hl : lookupF g fs with
      | none =>
        show bookmarksAt ps (insertB b qs emptyDict)
            = [] ++ (if g :: qs = g :: ps then [b] else [])
        rw [bookmarksAt_insertB qs b emptyDict ps, bookmarksAt_emptyDict]
        by_cases hq : qs = ps
        · simp [hq]
        · have : ¬ (g :: qs = g :: ps) := by
            intro hcontra
            injection hcontra with _ h2
            exact hq h2
          simp [hq, this]
      | some v =>
        show bookmarksAt ps (insertB b qs v)
            = bookmarksAt ps v ++ (if g :: qs = g :: ps then [b] else [])
        rw [bookmarksAt_insertB qs b v ps]
        by_cases hq : qs = ps
        · simp [hq]
        · have : ¬ (g :: qs = g :: ps) := by
            intro hcontra
            injection hcontra with _ h2
            exact hq h2
          simp [hq, this]
    · rw [if_neg hg]
      have hne : ¬ (f :: qs = g :: ps) := by
        intro hcontra
        injection hcontra with h1 _
        exact hg h1.symm
      rw [if_neg hne]
      simp

/-- Effect of inserting one record along path `q` on node existence: the
nodes after insertion are the previous nodes plus every (possibly empty)
prefix of `q`. -/
theorem nodeAt_isSome_insertB :
    ∀ (q : List String) (b : BookmarkInfo) (d : BookmarksDict)
      (p : List String),
      ((nodeAt p (insertB b q d)).isSome = true ↔
        (nodeAt p d).isSome = true ∨ p <+: q)
  | [], b, .mk bs fs, [] => by
    simp [insertB, nodeAt]
  | [], b, .mk bs fs, g :: ps => by
    rw [show insertB b [] (.mk bs fs) = .mk (bs ++ [b]) fs from rfl,
      nodeAt_cons, nodeAt_cons]
    simp [List.prefix_nil]
  | f :: qs, b, .mk bs fs, [] => by
    simp [insertB, nodeAt]
  | f :: qs, b, .mk bs fs, g :: ps => by
    rw [show insertB b (f :: qs) (.mk bs fs)
        = .mk bs (updFolder f (fun d => insertB b qs d) fs) from rfl,
      nodeAt_cons, nodeAt_cons, lookupF_updFolder]
    by_cases hg : g = f
    · rw [if_pos hg, ← hg]
      cases hl : lookupF g fs with
      | none =>
        show (nodeAt ps (insertB b qs emptyDict)).isSome = true ↔
          (Option.isSome (none : Option BookmarksDict) = true ∨
            g :: ps <+: g :: qs)
        rw [nodeAt_isSome_insertB qs b emptyDict ps]
        constructor
        · rintro (h | h)
          · rw [nodeAt_emptyDict] at h
            by_cases hps : ps = []
            · subst hps
              exact Or.inr (List.cons_prefix_cons.mpr ⟨rfl, List.nil_prefix⟩)
            · rw [if_neg hps] at h
              simp at h
          · exact Or.inr (List.cons_prefix_cons.mpr ⟨rfl, h⟩)
        · rintro (h | h)
          · simp at h
          · exact Or.inr (List.cons_prefix_cons.mp h).2
      | some v =>
        show (nodeAt ps (insertB b qs v)).isSome = true ↔
          ((nodeAt ps v).isSome = true ∨ g :: ps <+: g :: qs)
        rw [nodeAt_isSome_insertB qs b v ps]
        constructor
        · rintro (h | h)
          · exact Or.inl h
          · exact Or.inr (List.cons_prefix_cons.mpr ⟨rfl, h⟩)
        · rintro (h | h)
          · exact Or.inl h
          · exact Or.inr (List.cons_prefix_cons.mp h).2
    · rw [if_neg hg]
      have hpre : ¬ (g :: ps <+: f :: qs) := by
        intro hcontra
        exact hg (List.cons_prefix_cons.mp hcontra).1
      simp [hpre]

/-- Folding the record loop of `_build_bookmarks_dict` over any starting
tree: the bookmarks observed at `p` are the previous ones followed by the
processed records whose folder path is exactly `p`, in presentation
order. -/
theorem bookmarksAt_foldl :
    ∀ (records : List BookmarkInfo) (d : BookmarksDict) (p : List String),
      bookmarksAt p (records.foldl (fun d b => insertB b b.folders d) d) =
        bookmarksAt p d ++ records.filter (fun b => b.folders == p)
  | [], d, p => by simp
  | r :: rs, d, p => by
    rw [List.foldl_cons, bookmarksAt_foldl rs (insertB r r.folders d) p,
      bookmarksAt_insertB r.folders r d p, List.filter_cons]
    by_cases h : r.folders = p
    · simp [h]
    · simp [h]

/-- Folding the record loop over any starting tree: a node exists at `p`
afterwards iff it existed before or `p` is a prefix of some processed
record's folder path. -/
theorem nodeAt_isSome_foldl :
    ∀ (records : List BookmarkInfo) (d : BookmarksDict) (p : List String),
      ((nodeAt p (records.foldl (fun d b => insertB b b.folders d) d)).isSome
          = true ↔
        (nodeAt p d).isSome = true ∨ ∃ b ∈ records, p <+: b.folders)
  | [], d, p => by simp
  | r :: rs, d, p => by
    rw [List.foldl_cons, nodeAt_isSome_foldl rs (insertB r r.folders d) p,
      nodeAt_isSome_insertB r.folders r d p]
    constructor
    · rintro ((h | h) | h)
      · exact Or.inl h
      · exact Or.inr ⟨r, List.mem_cons_self r rs, h⟩
      · obtain ⟨b, hb, hp⟩ := h
        exact Or.inr ⟨b, List.mem_cons_of_mem r hb, hp⟩
    · rintro (h | h)
      · exact Or.inl (Or.inl h)
      · obtain ⟨b, hb, hp⟩ := h
        rcases List.mem_cons.mp hb with hb1 | hb2
        · subst hb1
          exact Or.inl (Or.inr hp)
        · exact Or.inr ⟨b, hb2, hp⟩

/-- C1: building the folder tree places each record with folder path `p`
in the bookmarks list of the node reached by walking the segments of `p`
from the root (the root's own list for the empty path); records sharing a
folder path accumulate there in presentation order; and the materialized
nodes are exactly the root plus the nonempty prefixes of the presented
records' folder paths (each missing child created on demand, so a path of
length N materializes exactly its N nested nodes). -/
theorem c1_tree_build (records : List BookmarkInfo) (p : List String) :
    bookmarksAt p (buildBookmarksDict records) =
        records.filter (fun b => b.folders == p)
    ∧ ((nodeAt p (buildBookmarksDict records)).isSome = true ↔
        p = [] ∨ ∃ b ∈ records, p <+: b.folders)
    ∧ (∀ n, nodeAt p (buildBookmarksDict records) = some n →
        n.bookmarks = records.filter (fun b => b.folders == p)) := by
  have h1 : bookmarksAt p (buildBookmarksDict records) =
      records.filter (fun b => b.folders == p) := by
    rw [buildBookmarksDict, bookmarksAt_foldl records emptyDict p,
      bookmarksAt_emptyDict]
    simp
  refine ⟨h1, ?_, ?_⟩
  · rw [buildBookmarksDict, nodeAt_isSome_foldl records emptyDict p,
      nodeAt_emptyDict]
    by_cases hp : p = []
    · simp [hp]
    · simp [hp]
  · intro n hn
    rw [← bookmarksAt_eq_of_nodeAt p (buildBookmarksDict records) n hn]
    exact h1

/-- Witness for `c1_tree_build`: the single record `r0` filed under
`["A"]` ends up alone in the bookmarks list of the node `root→A`. -/
theorem c1_tree_build_witness :
    nodeAt ["A"] (buildBookmarksDict [r0]) =
        some (BookmarksDict.mk [r0] FolderList.nil)
    ∧ (BookmarksDict.mk [r0] FolderList.nil).bookmarks =
        [r0].filter (fun b => b.folders == ["A"]) :=
  ⟨rfl,
    (c1_tree_build [r0] ["A"]).2.2 (BookmarksDict.mk [r0] FolderList.nil) rfl⟩

/-! ## Rendering -/

/-- A heading contributes its name to the heading projection. -/
theorem headingNames_cons_heading (n : String) (a m : Nat) (l : List Tok) :
    headingNames (Tok.heading n a m :: l) = n :: headingNames l := by
  simp [headingNames]

/-- A bookmark anchor contributes nothing to the heading projection. -/
theorem headingNames_cons_bookmark (ti u : String) (a m : Nat)
    (i : Option String) (l : List Tok) :
    headingNames (Tok.bookmark ti u a m i :: l) = headingNames l := by
  simp [headingNames]

/-- The heading projection distributes over append. -/
theorem headingNames_append (l1 l2 : List Tok) :
    headingNames (l1 ++ l2) = headingNames l1 ++ headingNames l2 := by
  simp [headingNames]

/-- Rendered bookmarks contain no headings. -/
theorem headingNames_map_html (t : Nat) (bs : List BookmarkInfo) :
    headingNames (bs.map (BookmarkInfo.htmlTok t)) = [] := by
  induction bs with
  | nil => rfl
  | cons b bs ih => simp [BookmarkInfo.htmlTok, headingNames_cons_bookmark, ih]

/-- A heading is dropped by the bookmark projection. -/
theorem bookmarkToks_cons_heading (n : String) (a m : Nat) (l : List Tok) :
    bookmarkToks (Tok.heading n a m :: l) = bookmarkToks l := by
  simp [bookmarkToks, isBookmarkTok, List.filter_cons]

/-- A bookmark anchor is kept by the bookmark projection. -/
theorem bookmarkToks_cons_bookmark (ti u : String) (a m : Nat)
    (i : Option String) (l : List Tok) :
    bookmarkToks (Tok.bookmark ti u a m i :: l) =
      Tok.bookmark ti u a m i :: bookmarkToks l := by
  simp [bookmarkToks, isBookmarkTok, List.filter_cons]

/-- The bookmark projection distributes over append. -/
theorem bookmarkToks_append (l1 l2 : List Tok) :
    bookmarkToks (l1 ++ l2) = bookmarkToks l1 ++ bookmarkToks l2 := by
  simp [bookmarkToks]

/-- Rendered bookmarks are all kept by the bookmark projection. -/
theorem bookmarkToks_map_html (t : Nat) (bs : List BookmarkInfo) :
    bookmarkToks (bs.map (BookmarkInfo.htmlTok t)) =
      bs.map (BookmarkInfo.htmlTok t) := by
  induction bs with
  | nil => rfl
  | cons b bs ih => simp [BookmarkInfo.htmlTok, bookmarkToks_cons_bookmark, ih]

mutual
/-- The headings emitted for one folder block are the folder's name
followed by the depth-first pre-order names of its subtree. -/
theorem headingNames_buildFolder (t : Nat) (name : String) :
    ∀ (d : BookmarksDict),
      headingNames (buildFolderBookmarkElements t name d) =
        name :: preorderNames d
  | .mk bs fs => by
    simp only [buildFolderBookmarkElements]
    rw [headingNames_cons_heading, headingNames_append,
      headingNames_map_html, headingNames_buildFolderList t fs]
    simp [preorderNames]
/-- The headings emitted for a sibling list are its pre-order names. -/
theorem headingNames_buildFolderList (t : Nat) :
    ∀ (l : FolderList),
      headingNames (buildFolderList t l) = preorderNamesList l
  | .nil => rfl
  | .cons k v tl => by
    simp only [buildFolderList]
    rw [headingNames_append, headingNames_buildFolder t k v,
      headingNames_buildFolderList t tl]
    simp [preorderNamesList]
end

mutual
/-- The anchors emitted for one folder block are exactly the subtree's
bookmarks in emission order (subfolders depth-first, then own list),
each rendered by `BookmarkInfo.htmlTok`, none reordered. -/
theorem bookmarkToks_buildFolder (t : Nat) (name : String) :
    ∀ (d : BookmarksDict),
      bookmarkToks (buildFolderBookmarkElements t name d) =
        (collectBookmarks d).map (BookmarkInfo.htmlTok t)
  | .mk bs fs => by
    simp only [buildFolderBookmarkElements, collectBookmarks]
    rw [bookmarkToks_cons_heading, bookmarkToks_append,
      bookmarkToks_map_html, bookmarkToks_buildFolderList t fs]
    simp
/-- The anchors emitted for a sibling list are its collected bookmarks. -/
theorem bookmarkToks_buildFolderList (t : Nat) :
    ∀ (l : FolderList),
      bookmarkToks (buildFolderList t l) =
        (collectBookmarksList l).map (BookmarkInfo.htmlTok t)
  | .nil => rfl
  | .cons k v tl => by
    simp only [buildFolderList, collectBookmarksList]
    rw [bookmarkToks_append, bookmarkToks_buildFolder t k v,
      bookmarkToks_buildFolderList t tl]
    simp
end

/-- C2: rendering emits all folder blocks before the root's own (bare)
bookmarks; the emitted folder headings are exactly the depth-first
pre-order folder names, siblings in first-seen insertion order; the
emitted anchors are exactly the tree's bookmarks in emission order — for
each folder its subfolders' bookmarks depth-first and then its own list,
with the root's own list last — never reordered within a node; and each
folder block is its heading, then its recursively rendered subfolders,
then its own bookmarks. -/
theorem c2_render_order (t : Nat) (d : BookmarksDict) :
    buildBookmarkElements t d =
        buildFolderList t d.foldersOf ++
          d.bookmarks.map (BookmarkInfo.htmlTok t)
    ∧ headingNames (buildBookmarkElements t d) = preorderNamesList d.foldersOf
    ∧ bookmarkToks (buildBookmarkElements t d) =
        (collectBookmarksList d.foldersOf ++ d.bookmarks).map
          (BookmarkInfo.htmlTok t)
    ∧ (∀ (name : String) (node : BookmarksDict),
        buildFolderBookmarkElements t name node =
          Tok.heading name t t ::
            (buildFolderList t node.foldersOf ++
              node.bookmarks.map (BookmarkInfo.htmlTok t))) := by
  refine ⟨rfl, ?_, ?_, ?_⟩
  · rw [buildBookmarkElements, headingNames_append,
      headingNames_buildFolderList t d.foldersOf, headingNames_map_html]
    simp
  · rw [buildBookmarkElements, bookmarkToks_append,
      bookmarkToks_buildFolderList t d.foldersOf, bookmarkToks_map_html]
    simp
  · intro name node
    cases node with
    | mk bs fs => rfl

mutual
/-- Every element of a rendered folder block carries the shared run
timestamp in both attributes. -/
theorem tok_time_buildFolder (t : Nat) (name : String) :
    ∀ (d : BookmarksDict) (tok : Tok),
      tok ∈ buildFolderBookmarkElements t name d →
        tokAddDate tok = t ∧ tokLastModified tok = t
  | .mk bs fs, tok, h => by
    simp only [buildFolderBookmarkElements] at h
    rcases List.mem_cons.mp h with h1 | h2
    · subst h1
      exact ⟨rfl, rfl⟩
    · rcases List.mem_append.mp h2 with h3 | h4
      · exact tok_time_buildFolderList t fs tok h3
      · obtain ⟨b, _, hb⟩ := List.mem_map.mp h4
        subst hb
        exact ⟨rfl, rfl⟩
/-- Every element rendered for a sibling list carries the shared run
timestamp in both attributes. -/
theorem tok_time_buildFolderList (t : Nat) :
    ∀ (l : FolderList) (tok : Tok),
      tok ∈ buildFolderList t l →
        tokAddDate tok = t ∧ tokLastModified tok = t
  | .nil, tok, h => by
    simp only [buildFolderList] at h
    exact absurd h (List.not_mem_nil tok)
  | .cons k v tl, tok, h => by
    simp only [buildFolderList] at h
    rcases List.mem_append.mp h with h1 | h2
    · exact tok_time_buildFolder t k v tok h1
    · exact tok_time_buildFolderList t tl tok h2
end

/-- C9: every bookmark anchor and every folder heading emitted in one run
carries the same `ADD_DATE` and `LAST_MODIFIED` value — the single
module-load timestamp `t` that parametrizes the (pure, hence
deterministic) renderer. -/
theorem c9_shared_timestamps (t : Nat) (d : BookmarksDict) (tok : Tok)
    (h : tok ∈ buildBookmarkElements t d) :
    tokAddDate tok = t ∧ tokLastModified tok = t := by
  rw [buildBookmarkElements] at h
  rcases List.mem_append.mp h with h1 | h2
  · exact tok_time_buildFolderList t d.foldersOf tok h1
  · obtain ⟨b, _, hb⟩ := List.mem_map.mp h2
    subst hb
    exact ⟨rfl, rfl⟩

/-- Witness for `c9_shared_timestamps`: the heading rendered for the
folder `"A"` in a run with timestamp `7` carries `7` twice. -/
theorem c9_shared_timestamps_witness :
    (Tok.heading "A" 7 7 ∈
      buildBookmarkElements 7
        (BookmarksDict.mk []
          (FolderList.cons "A" (BookmarksDict.mk [] FolderList.nil)
            FolderList.nil)))
    ∧ tokAddDate (Tok.heading "A" 7 7) = 7
    ∧ tokLastModified (Tok.heading "A" 7 7) = 7 := by
  have h : Tok.heading "A" 7 7 ∈
      buildBookmarkElements 7
        (BookmarksDict.mk []
          (FolderList.cons "A" (BookmarksDict.mk [] FolderList.nil)
            FolderList.nil)) := by decide
  exact ⟨h, c9_shared_timestamps 7 _ _ h⟩
